import Mathlib

/-!
Shallow embedding of the wall-paint visualizer backend
(`backend/improved_sam_visualizer.py` and `backend/app.py`).

Modelling conventions:
* Python floats are modelled as exact rationals (ℚ).
* Images are flattened pixel lists; a pixel is an RGB triple of naturals.
  The BGR↔RGB conversions performed by the code are channel permutations
  that are inverted before returning, so they are dropped from the model.
* Boolean masks are flattened lists of booleans of the image's length;
  the code's spatial-dimension-match guard becomes a length-match guard.
* `cv2.resize` (the external interpolation routine) is an abstract
  parameter `cvResize`; everything the repository itself does around it
  (0/255 conversion, threshold at 127, area recomputation, bbox scaling,
  zero-area dropping) is embedded concretely.
* `numpy.astype(uint8)` on the non-negative blend results is truncation
  toward zero, i.e. the rational floor.
-/

namespace WallPaint

/-- Truncation of a rational toward zero, as Python's `int()` on a float. -/
def pyInt (q : ℚ) : ℤ :=
  if 0 ≤ q then ⌊q⌋ else -⌊-q⌋

/-- `np.clip` on rationals. -/
def clip (q lo hi : ℚ) : ℚ := max lo (min q hi)

/-- An RGB pixel (each channel a natural, 0..255 for valid images). -/
def Pixel : Type := ℕ × ℕ × ℕ

instance : DecidableEq Pixel := by unfold Pixel; infer_instance

/-- Bounding box `(x, y, w, h)` as produced by the segmentation oracle. -/
structure BBox where
  x : ℤ
  y : ℤ
  w : ℤ
  h : ℤ
deriving DecidableEq, Repr

/-- A raw region proposal from the segmentation oracle:
`{segmentation, bbox, stability_score}` as consumed by
`detect_walls_improved`. The mask is flattened. -/
structure MaskData where
  segmentation : List Bool
  bbox : BBox
  stability_score : ℚ
deriving DecidableEq, Repr

/-- `WallSegment` dataclass from `improved_sam_visualizer.py`. -/
structure WallSegment where
  mask : List Bool
  area : ℕ
  bbox : BBox
  confidence : ℚ
  wall_type : String
deriving DecidableEq, Repr

/-! ## Wall classifier (`classify_wall_advanced`) -/

/-- `area_ratio = (w * h) / (img_w * img_h)`. -/
def area_ratio (b : BBox) (img_h img_w : ℕ) : ℚ :=
  ((b.w * b.h : ℤ) : ℚ) / ((img_w * img_h : ℕ) : ℚ)

/-- `aspect_ratio = max(w, h) / max(min(w, h), 1)`. -/
def aspect_ratio (b : BBox) : ℚ :=
  ((max b.w b.h : ℤ) : ℚ) / ((max (min b.w b.h) 1 : ℤ) : ℚ)

/-- `position_x = (x + w/2) / img_w`. -/
def position_x (b : BBox) (img_w : ℕ) : ℚ :=
  ((b.x : ℚ) + (b.w : ℚ) / 2) / (img_w : ℚ)

/-- `position_y = (y + h/2) / img_h`. -/
def position_y (b : BBox) (img_h : ℕ) : ℚ :=
  ((b.y : ℚ) + (b.h : ℚ) / 2) / (img_h : ℚ)

/-- `touches_left = x <= edge_margin` with `edge_margin = 30`. -/
def touches_left (b : BBox) : Prop := b.x ≤ 30

instance (b : BBox) : Decidable (touches_left b) := by
  unfold touches_left; infer_instance

/-- `touches_right = (x + w) >= (img_w - edge_margin)`. -/
def touches_right (b : BBox) (img_w : ℕ) : Prop := b.x + b.w ≥ (img_w : ℤ) - 30

instance (b : BBox) (img_w : ℕ) : Decidable (touches_right b img_w) := by
  unfold touches_right; infer_instance

/-- Condition of the first (`main_wall`) branch of `classify_wall_advanced`. -/
def mainWallCond (b : BBox) (img_h img_w : ℕ) : Prop :=
  area_ratio b img_h img_w > 0.20 ∧ aspect_ratio b < 3.5 ∧
    (touches_left b ∨ touches_right b img_w) ∧ (b.h : ℚ) > (img_h : ℚ) * 0.4

instance (b : BBox) (img_h img_w : ℕ) : Decidable (mainWallCond b img_h img_w) := by
  unfold mainWallCond; infer_instance

/-- Condition of the second (`accent_wall`) branch of `classify_wall_advanced`. -/
def accentWallCond (b : BBox) (img_h img_w : ℕ) : Prop :=
  area_ratio b img_h img_w > 0.12 ∧ aspect_ratio b < 4 ∧
    (0.15 < position_x b img_w ∧ position_x b img_w < 0.85) ∧
    position_y b img_h < 0.75 ∧ (b.h : ℚ) > (img_h : ℚ) * 0.3

instance (b : BBox) (img_h img_w : ℕ) : Decidable (accentWallCond b img_h img_w) := by
  unfold accentWallCond; infer_instance

/-- `classify_wall_advanced` (the mask argument is unused by the code):
returns `(wall_type, score)` by the strict first-match branch chain. -/
def classify_wall_advanced (b : BBox) (img_h img_w : ℕ) : String × ℚ :=
  if mainWallCond b img_h img_w then ("main_wall", 0.95)
  else if accentWallCond b img_h img_w then ("accent_wall", 0.75)
  else if area_ratio b img_h img_w < 0.08 then ("rejected", 0)
  else ("background", 0)

/-! ## Detection loop (`detect_walls_improved`) -/

/-- The per-proposal body of the detection loop: classify, and retain as a
`WallSegment` exactly when `wall_score >= 0.5`, with stored confidence
`stability_score * wall_score`. -/
def processProposal (img_h img_w : ℕ) (md : MaskData) : Option WallSegment :=
  if (classify_wall_advanced md.bbox img_h img_w).2 ≥ 0.5 then
    some { mask := md.segmentation
           area := md.segmentation.countP id
           bbox := md.bbox
           confidence := md.stability_score * (classify_wall_advanced md.bbox img_h img_w).2
           wall_type := (classify_wall_advanced md.bbox img_h img_w).1 }
  else none

/-- Type priority used by the sort key:
`3 if main_wall else 2 if accent_wall else 1`. -/
def typePriority (t : String) : ℕ :=
  if t = "main_wall" then 3 else if t = "accent_wall" then 2 else 1

/-- Secondary sort key `area * confidence`. -/
def areaConf (s : WallSegment) : ℚ := (s.area : ℚ) * s.confidence

/-- The descending lexicographic comparison realizing
`sort(key=(priority, area*confidence), reverse=True)`:
`a` may precede `b` iff `a`'s key is lexicographically ≥ `b`'s. -/
def segGE (a b : WallSegment) : Bool :=
  decide (typePriority b.wall_type < typePriority a.wall_type ∨
    (typePriority a.wall_type = typePriority b.wall_type ∧ areaConf b ≤ areaConf a))

/-- The `wall_segments.sort(..., reverse=True)` step. -/
def sortSegments (l : List WallSegment) : List WallSegment :=
  l.mergeSort segGE

/-- `detect_walls_improved`, from the oracle's mask list onward: retain the
proposals whose classification score is ≥ 0.5 and sort them by importance. -/
def detect_walls_improved (img_h img_w : ℕ) (masks : List MaskData) :
    List WallSegment :=
  sortSegments (masks.filterMap (processProposal img_h img_w))

/-! ## Mask rescaler (`resize_masks_to_original`) -/

section Rescale

/- Abstract external interpolating resize (`cv2.resize` with
`INTER_LINEAR`): intensity grid (flattened), target width and height ↦
resized intensity grid. The repository treats it as a collaborator. -/
variable (cvResize : List ℕ → ℕ → ℕ → List ℕ)

/-- The per-segment body of `resize_masks_to_original`: 0/255 conversion,
interpolated resize, re-threshold at 127, recomputed area, bbox divided by
`scale_factor` and truncated to int. -/
def resizeSegment (original_w original_h : ℕ) (scale_factor : ℚ)
    (s : WallSegment) : WallSegment :=
  let mask_uint8 := s.mask.map (fun b => if b then (255 : ℕ) else 0)
  let resized_mask := cvResize mask_uint8 original_w original_h
  let resized_mask_bool := resized_mask.map (fun v => decide (127 < v))
  let new_area := resized_mask_bool.countP id
  { mask := resized_mask_bool
    area := new_area
    bbox := { x := pyInt ((s.bbox.x : ℚ) / scale_factor)
              y := pyInt ((s.bbox.y : ℚ) / scale_factor)
              w := pyInt ((s.bbox.w : ℚ) / scale_factor)
              h := pyInt ((s.bbox.h : ℚ) / scale_factor) }
    confidence := s.confidence
    wall_type := s.wall_type }

/-- The accumulation loop of `resize_masks_to_original`: resized segments
are appended in input order, and a segment whose new area is 0 is skipped. -/
def resizeLoop (original_w original_h : ℕ) (scale_factor : ℚ) :
    List WallSegment → List WallSegment
  | [] => []
  | s :: rest =>
    let r := resizeSegment cvResize original_w original_h scale_factor s
    if 0 < r.area then r :: resizeLoop original_w original_h scale_factor rest
    else resizeLoop original_w original_h scale_factor rest

/-- `resize_masks_to_original`: identity fast path at `scale_factor = 1.0`,
otherwise the per-segment resize loop. -/
def resize_masks_to_original (wall_segments : List WallSegment)
    (original_h original_w : ℕ) (scale_factor : ℚ) : List WallSegment :=
  if scale_factor = 1 then wall_segments
  else resizeLoop cvResize original_w original_h scale_factor wall_segments

end Rescale

/-! ## Paint compositor (`apply_smart_paint`) -/

/-- Grayscale intensity of an RGB pixel (`cv2.COLOR_RGB2GRAY` weights
0.299/0.587/0.114, modelled exactly on rationals). -/
def gray (p : Pixel) : ℚ :=
  0.299 * (p.1 : ℚ) + 0.587 * (p.2.1 : ℚ) + 0.114 * (p.2.2 : ℚ)

/-- Per-wall-type opacity adjustment:
`*= 0.9` for `accent_wall`, `*= 0.6` for `background`, else unchanged. -/
def wallOpacity (wall_type : String) (opacity : ℚ) : ℚ :=
  if wall_type = "accent_wall" then opacity * 0.9
  else if wall_type = "background" then opacity * 0.6
  else opacity

/-- A non-negative rational cast to an integer pixel channel
(`astype(np.uint8)` truncation on the non-negative blend result). -/
def toChan (q : ℚ) : ℕ := ⌊q⌋.toNat

/-- `original * (1 - alpha) + color * alpha`, per channel, truncated. -/
def blendPixel (p : Pixel) (adj : ℚ × ℚ × ℚ) (alpha : ℚ) : Pixel :=
  (toChan ((p.1 : ℚ) * (1 - alpha) + adj.1 * alpha),
   toChan ((p.2.1 : ℚ) * (1 - alpha) + adj.2.1 * alpha),
   toChan ((p.2.2 : ℚ) * (1 - alpha) + adj.2.2 * alpha))

/-- The pixels of `image` selected by a boolean mask (`image[mask_bool]`). -/
def maskedPixels (image : List Pixel) (mask : List Bool) : List Pixel :=
  (image.zip mask).filterMap (fun pb => if pb.2 then some pb.1 else none)

/-- Average brightness of the wall pixels (`np.mean` of the grayscale). -/
def avgBrightness (ps : List Pixel) : ℚ :=
  (ps.map gray).sum / (ps.length : ℚ)

/-- `brightness_factor = np.clip(avg_brightness / 128.0, 0.7, 1.3)`. -/
def brightnessFactor (image : List Pixel) (mask : List Bool) : ℚ :=
  clip (avgBrightness (maskedPixels image mask) / 128) 0.7 1.3

/-- `adjusted_color = np.clip(color_rgb * brightness_factor, 0, 255)`. -/
def adjustedColor (color : Pixel) (bf : ℚ) : ℚ × ℚ × ℚ :=
  (clip ((color.1 : ℚ) * bf) 0 255,
   clip ((color.2.1 : ℚ) * bf) 0 255,
   clip ((color.2.2 : ℚ) * bf) 0 255)

/-- The per-segment body of the paint loop in `apply_smart_paint`:
dimension guard, empty-mask guard, brightness-adaptive color adjustment,
per-type opacity, alpha blend under the mask. -/
def paintSegment (color : Pixel) (opacity : ℚ) (image : List Pixel)
    (s : WallSegment) : List Pixel :=
  if s.mask.length ≠ image.length then image
  else if (maskedPixels image s.mask).length = 0 then image
  else
    (image.zip s.mask).map
      (fun pb =>
        if pb.2 then
          blendPixel pb.1 (adjustedColor color (brightnessFactor image s.mask))
            (wallOpacity s.wall_type opacity)
        else pb.1)

/-- The `walls_to_paint` filter: main walls only, or all. -/
def wallsFilter (wall_segments : List WallSegment)
    (paint_main_walls_only : Bool) : List WallSegment :=
  if paint_main_walls_only then
    wall_segments.filter (fun w => w.wall_type = "main_wall")
  else wall_segments

/-- `apply_smart_paint`: early return on empty segment list, optional
main-walls-only filter (empty filter result returns the image unpainted),
then the sequential per-segment paint loop. -/
def apply_smart_paint (image : List Pixel) (wall_segments : List WallSegment)
    (color : Pixel) (opacity : ℚ) (paint_main_walls_only : Bool) : List Pixel :=
  if wall_segments = [] then image
  else if wallsFilter wall_segments paint_main_walls_only = [] then image
  else (wallsFilter wall_segments paint_main_walls_only).foldl
    (paintSegment color opacity) image

/-! ## Segmentation cache and app endpoints (`app.py`) -/

/-- One value of the `mask_cache` dict: the fields of the cached entry the
endpoints read back (rescaled segments and the original pixel buffer). -/
structure CacheEntry where
  wall_segments : List WallSegment
  original_image : List Pixel
deriving DecidableEq

/-- The `mask_cache` dict, as an association list with unique keys. -/
def Cache : Type := List (String × CacheEntry)

instance : DecidableEq Cache := by unfold Cache; infer_instance

/-- `image_hash in mask_cache` / `mask_cache[image_hash]` read. -/
def cacheLookup (c : Cache) (k : String) : Option CacheEntry :=
  List.lookup k c

/-- `mask_cache[image_hash] = entry`: dict assignment (overwrite). -/
def cacheStore (c : Cache) (k : String) (e : CacheEntry) : Cache :=
  (k, e) :: c.filter (fun p => p.1 ≠ k)

/-- `clear_cache`: records `len(mask_cache)`, empties the dict, and reports
the recorded count. -/
def clear_cache (c : Cache) : Cache × ℕ :=
  (([] : List (String × CacheEntry)), c.length)

/-- The response fields of `/api/detect-walls` the claims are about. -/
structure DetectResponse where
  success : Bool
  walls_detected : ℕ
  from_cache : Bool
deriving DecidableEq

/-- `detect_walls_only` for a decodable image: cache hit returns the cached
summary; otherwise run detection, and cache the rescaled result only when
the segment list is non-empty. `masks` is the oracle's proposal list for
the working-resolution image, `(img_h, img_w)` its shape, `(oh, ow)` the
original shape and `sf` the scale factor from preprocessing. -/
def detect_walls_only (cvResize : List ℕ → ℕ → ℕ → List ℕ) (c : Cache)
    (image_hash : String) (original_image : List Pixel) (oh ow : ℕ) (sf : ℚ)
    (img_h img_w : ℕ) (masks : List MaskData) : Cache × DetectResponse :=
  match cacheLookup c image_hash with
  | some entry => (c, ⟨true, entry.wall_segments.length, true⟩)
  | none =>
    let wall_segments := detect_walls_improved img_h img_w masks
    if wall_segments ≠ [] then
      let resized := resize_masks_to_original cvResize wall_segments oh ow sf
      (cacheStore c image_hash ⟨resized, original_image⟩,
       ⟨true, resized.length, false⟩)
    else (c, ⟨true, 0, false⟩)

/-- Python list indexing `segs[i]` for an `int` index: non-negative indices
address from the front, negative indices ≥ `-len` from the back, and
anything below `-len` raises `IndexError` (modelled as `none`). -/
def pyGet (segs : List WallSegment) (i : ℤ) : Option WallSegment :=
  if 0 ≤ i then segs.get? i.toNat
  else if 0 ≤ (segs.length : ℤ) + i then segs.get? ((segs.length : ℤ) + i).toNat
  else none

/-- The list comprehension
`[wall_segments[i] for i in selected_wall_ids if i < len(wall_segments)]`:
indices ≥ `len` are filtered out by the guard; an `IndexError` from a very
negative index aborts the whole request (propagated as `Except.error`). -/
def buildWallsToPaint (segs : List WallSegment) :
    List ℤ → Except String (List WallSegment)
  | [] => Except.ok []
  | i :: rest =>
    if i < (segs.length : ℤ) then
      match pyGet segs i with
      | some s => (buildWallsToPaint segs rest).map (fun l => s :: l)
      | none => Except.error "list index out of range"
    else buildWallsToPaint segs rest

/-- A `/api/paint-instant` request body (color already hex-decoded). -/
structure PaintRequest where
  image_hash : String
  wall_ids : List ℤ
  color : Pixel
  opacity : ℚ
  mainWallsOnly : Bool

/-- `paint_instant`: cache miss is an error; an empty `wall_ids` selects all
cached walls, otherwise the guarded comprehension selects by index; an
empty selection is rejected with an error; otherwise the compositor runs.
Returns the painted image and the reported `walls_painted` count. -/
def paint_instant (c : Cache) (req : PaintRequest) :
    Except String (List Pixel × ℕ) :=
  match cacheLookup c req.image_hash with
  | none => Except.error "Image not found in cache. Please detect walls first."
  | some cached_data =>
    let wall_segments := cached_data.wall_segments
    let sel := if req.wall_ids = [] then Except.ok wall_segments
               else buildWallsToPaint wall_segments req.wall_ids
    match sel with
    | Except.error e => Except.error e
    | Except.ok walls_to_paint =>
      if walls_to_paint = [] then Except.error "No valid walls to paint"
      else
        Except.ok
          (apply_smart_paint cached_data.original_image walls_to_paint
             req.color req.opacity req.mainWallsOnly,
           walls_to_paint.length)

/-- The fixed 5-color palette of `create_mask_visualization`. -/
def maskPalette : List Pixel :=
  [(255, 0, 0), (0, 255, 0), (0, 0, 255), (255, 255, 0), (255, 0, 255)]

/-- The 50% flat blend of `create_mask_visualization`:
`vis * 0.5 + color * 0.5`, truncated per channel. -/
def blendVis (p c : Pixel) : Pixel :=
  (toChan ((p.1 : ℚ) * 0.5 + (c.1 : ℚ) * 0.5),
   toChan ((p.2.1 : ℚ) * 0.5 + (c.2.1 : ℚ) * 0.5),
   toChan ((p.2.2 : ℚ) * 0.5 + (c.2.2 : ℚ) * 0.5))

/-- One iteration of the visualization loop: pick the palette color by
`idx % len(colors)`, resize the mask (through the abstract `cv2.resize`,
re-thresholded at 127) when its size does not match the image, and blend
the color at 50% under the mask. `(iw, ih)` are the image's width and
height, the resize target the code takes from `vis_image.shape`. -/
def visStep (cvR : List ℕ → ℕ → ℕ → List ℕ) (iw ih : ℕ)
    (vis : List Pixel) (idxseg : ℕ × WallSegment) : List Pixel :=
  let color := maskPalette.getD (idxseg.1 % maskPalette.length) (0, 0, 0)
  let mask_resized :=
    if idxseg.2.mask.length ≠ vis.length then
      (cvR (idxseg.2.mask.map (fun b => if b then 255 else 0)) iw ih).map
        (fun v => decide (127 < v))
    else idxseg.2.mask
  (vis.zip mask_resized).map
    (fun pb => if pb.2 then blendVis pb.1 color else pb.1)

/-- `create_mask_visualization`: overlay the first 5 segments with the
palette colors at 50% opacity (BGR↔RGB round-trip dropped, as in the
paint model). -/
def create_mask_visualization (cvR : List ℕ → ℕ → ℕ → List ℕ) (iw ih : ℕ)
    (image : List Pixel) (wall_segments : List WallSegment) : List Pixel :=
  ((wall_segments.take 5).enum).foldl (visStep cvR iw ih) image

/-- `visualize_masks`: a falsy (empty) hash or a fingerprint not in the
cache is answered with the cache-miss error; a hit renders the overlay of
the cached entry. -/
def visualize_masks (cvR : List ℕ → ℕ → ℕ → List ℕ) (iw ih : ℕ)
    (c : Cache) (image_hash : String) : Except String (List Pixel) :=
  if image_hash = "" then Except.error "Image not found in cache"
  else
    match cacheLookup c image_hash with
    | some cached_data =>
      Except.ok (create_mask_visualization cvR iw ih cached_data.original_image
        cached_data.wall_segments)
    | none => Except.error "Image not found in cache"

/-! ## Helper lemmas -/

/-- A classification score of at least 0.5 forces the first or the second
branch of `classify_wall_advanced`, hence a main or accent wall type. -/
lemma classify_score_ge_half {b : BBox} {img_h img_w : ℕ}
    (h : (classify_wall_advanced b img_h img_w).2 ≥ 0.5) :
    (classify_wall_advanced b img_h img_w).1 = "main_wall" ∨
      (classify_wall_advanced b img_h img_w).1 = "accent_wall" := by
  unfold classify_wall_advanced at h ⊢
  split_ifs at h ⊢
  · exact Or.inl rfl
  · exact Or.inr rfl
  · norm_num at h
  · norm_num at h

/-! ## C1 -/

/-- C1 (amended): a proposal is retained as a WallSegment iff its
classification score alone is ≥ 0.5 (the code tests `wall_score >= 0.5`,
not the combined confidence); consequently only main_wall and accent_wall
proposals are ever retained, and the stored confidence of a retained
segment is the oracle stability score multiplied by the classification
score (which may itself be below 0.5). -/
theorem claim_C1_amended (img_h img_w : ℕ) (md : MaskData) :
    ((processProposal img_h img_w md).isSome ↔
      (classify_wall_advanced md.bbox img_h img_w).2 ≥ 0.5) ∧
    ∀ s, processProposal img_h img_w md = some s →
      (s.wall_type = "main_wall" ∨ s.wall_type = "accent_wall") ∧
      s.confidence =
        md.stability_score * (classify_wall_advanced md.bbox img_h img_w).2 := by
  constructor
  · unfold processProposal
    split_ifs with h <;> simp [h]
  · intro s hs
    unfold processProposal at hs
    split_ifs at hs with h
    simp only [Option.some.injEq] at hs
    subst hs
    exact ⟨classify_score_ge_half h, rfl⟩

/-- A proposal classified `main_wall` (score 0.95) with stability score 0.4:
large, square, edge-touching box in a 100×100 working image. -/
def mdC1 : MaskData := ⟨[], ⟨0, 0, 60, 60⟩, 0.4⟩

/-- C1 counterexample: this proposal is retained by the detection loop even
though its combined confidence, stability score × classification score
= 0.4 × 0.95 = 0.38, is below 0.5 — refuting "retained if and only if the
combined confidence is at least 0.5". -/
theorem claim_C1_counterexample :
    (processProposal 100 100 mdC1).isSome = true ∧
    mdC1.stability_score * (classify_wall_advanced mdC1.bbox 100 100).2 < 0.5 := by
  have hm : mainWallCond ⟨0, 0, 60, 60⟩ 100 100 := by
    unfold mainWallCond area_ratio aspect_ratio touches_left touches_right
    norm_num
  have hc : classify_wall_advanced mdC1.bbox 100 100 = ("main_wall", 0.95) := by
    unfold classify_wall_advanced mdC1
    rw [if_pos hm]
  constructor
  · unfold processProposal
    rw [hc]
    norm_num
  · rw [hc]
    norm_num [mdC1]

/-- C1 witness: the amended retention rule applied to the concrete
proposal — classification score 0.95 ≥ 0.5, so it is retained. -/
theorem claim_C1_witness : (processProposal 100 100 mdC1).isSome = true :=
  (claim_C1_amended 100 100 mdC1).1.mpr (by
    have hm : mainWallCond ⟨0, 0, 60, 60⟩ 100 100 := by
      unfold mainWallCond area_ratio aspect_ratio touches_left touches_right
      norm_num
    have hc : classify_wall_advanced mdC1.bbox 100 100 = ("main_wall", 0.95) := by
      unfold classify_wall_advanced mdC1
      rw [if_pos hm]
    rw [hc]
    norm_num)

/-! ## C2 -/

/-- C2: the classifier evaluates its rules in strict first-match order and
returns `("main_wall", 0.95)` exactly when `area_ratio > 0.20`,
`aspect_ratio < 3.5`, the box touches the left or right edge, and
`height > 0.4 × image_height`; a proposal with `area_ratio = 0.21`,
`aspect_ratio = 3`, touching the left edge, with `height = 0.5 ×
image_height`, is `("main_wall", 0.95)`; and any proposal with
`area_ratio = 0.05` is `("rejected", 0)` regardless of its other fields. -/
theorem claim_C2 (b : BBox) (img_h img_w : ℕ) (hh : 0 < img_h) :
    (classify_wall_advanced b img_h img_w = ("main_wall", 0.95) ↔
      mainWallCond b img_h img_w) ∧
    (area_ratio b img_h img_w = 0.21 → aspect_ratio b = 3 → touches_left b →
      (b.h : ℚ) = (img_h : ℚ) * 0.5 →
      classify_wall_advanced b img_h img_w = ("main_wall", 0.95)) ∧
    (area_ratio b img_h img_w = 0.05 →
      classify_wall_advanced b img_h img_w = ("rejected", 0)) := by
  refine ⟨?_, ?_, ?_⟩
  · unfold classify_wall_advanced
    split_ifs with h1 h2 h3 <;> simp_all
  · intro har hasp htl hht
    have hm : mainWallCond b img_h img_w := by
      refine ⟨by rw [har]; norm_num, by rw [hasp]; norm_num, Or.inl htl, ?_⟩
      rw [hht]
      have h0 : (0 : ℚ) < (img_h : ℚ) := by exact_mod_cast hh
      nlinarith
    unfold classify_wall_advanced
    rw [if_pos hm]
  · intro har
    have hm : ¬mainWallCond b img_h img_w := by
      rintro ⟨ha, -⟩
      rw [har] at ha
      norm_num at ha
    have haw : ¬accentWallCond b img_h img_w := by
      rintro ⟨ha, -⟩
      rw [har] at ha
      norm_num at ha
    have hr : area_ratio b img_h img_w < 0.08 := by
      rw [har]; norm_num
    unfold classify_wall_advanced
    rw [if_neg hm, if_neg haw, if_pos hr]

/-- C2 witness: the claim's boundary instance, concretely: a 21×63 box at
the origin of a 50×126 working image has `area_ratio = 0.21`,
`aspect_ratio = 3`, touches the left edge, and spans half the image
height, so it classifies as `("main_wall", 0.95)`. -/
theorem claim_C2_witness :
    classify_wall_advanced ⟨0, 0, 21, 63⟩ 126 50 = ("main_wall", 0.95) :=
  (claim_C2 ⟨0, 0, 21, 63⟩ 126 50 (by norm_num)).2.1
    (by unfold area_ratio; norm_num)
    (by unfold aspect_ratio; norm_num)
    (by unfold touches_left; norm_num)
    (by norm_num)

/-! ## C4 -/

/-- C4: cache round-trip — `store(K, E)` then `lookup(K)` returns `E`;
after `clear()` every lookup is absent; and the count reported by
`clear()` is the number of entries present immediately before the call. -/
theorem claim_C4 (c : Cache) (K : String) (E : CacheEntry) :
    cacheLookup (cacheStore c K E) K = some E ∧
    (∀ K2, cacheLookup (clear_cache c).1 K2 = none) ∧
    (clear_cache c).2 = c.length := by
  refine ⟨?_, fun K2 => rfl, rfl⟩
  simp [cacheLookup, cacheStore, List.lookup]

/-- A cache entry for the C4 witness. -/
def entryC4 : CacheEntry := ⟨[], [(1, 2, 3)]⟩

/-- C4 witness: the round-trip at a concrete key and entry. -/
theorem claim_C4_witness :
    cacheLookup (cacheStore [] "k" entryC4) "k" = some entryC4 :=
  (claim_C4 [] "k" entryC4).1

/-! ## C5 -/

/-- `typePriority` only takes the values 1, 2 and 3. -/
lemma typePriority_le_three (t : String) : typePriority t ≤ 3 := by
  unfold typePriority
  split_ifs <;> norm_num

/-- `typePriority` is 3 exactly on `main_wall`. -/
lemma typePriority_eq_three (t : String) : typePriority t = 3 ↔ t = "main_wall" := by
  unfold typePriority
  split_ifs with h1 h2 <;> simp_all

/-- The descending lexicographic comparison is total. -/
lemma segGE_total (a b : WallSegment) : (segGE a b || segGE b a) = true := by
  simp only [segGE, Bool.or_eq_true, decide_eq_true_eq]
  rcases lt_trichotomy (typePriority a.wall_type) (typePriority b.wall_type) with h | h | h
  · exact Or.inr (Or.inl h)
  · rcases le_total (areaConf b) (areaConf a) with h2 | h2
    · exact Or.inl (Or.inr ⟨h, h2⟩)
    · exact Or.inr (Or.inr ⟨h.symm, h2⟩)
  · exact Or.inl (Or.inl h)

/-- The descending lexicographic comparison is transitive. -/
lemma segGE_trans (a b c : WallSegment) (hab : segGE a b = true)
    (hbc : segGE b c = true) : segGE a c = true := by
  simp only [segGE, decide_eq_true_eq] at hab hbc ⊢
  rcases hab with h | ⟨h1, h2⟩ <;> rcases hbc with h3 | ⟨h4, h5⟩
  · exact Or.inl (h3.trans h)
  · exact Or.inl (h4 ▸ h)
  · exact Or.inl (h1.symm ▸ h3)
  · exact Or.inr ⟨h1.trans h4, h5.trans h2⟩

/-- C5: the segment list produced by detection is a permutation of the
retained proposals, pairwise sorted by the composite key — type-priority
(main_wall = 3, accent_wall = 2, everything else = 1) first, then
`area × confidence`, both descending — and consequently every segment
preceding a main_wall segment is itself a main_wall (main_wall segments
always come first). The ordering is a pure function of the input, hence
deterministic for identical inputs. -/
theorem claim_C5 (img_h img_w : ℕ) (masks : List MaskData) :
    (detect_walls_improved img_h img_w masks).Perm
      (masks.filterMap (processProposal img_h img_w)) ∧
    (detect_walls_improved img_h img_w masks).Pairwise (fun a b =>
      typePriority b.wall_type < typePriority a.wall_type ∨
        (typePriority a.wall_type = typePriority b.wall_type ∧
          areaConf b ≤ areaConf a)) ∧
    (detect_walls_improved img_h img_w masks).Pairwise (fun a b =>
      b.wall_type = "main_wall" → a.wall_type = "main_wall") := by
  have hsorted :=
    List.sorted_mergeSort segGE_trans segGE_total
      (masks.filterMap (processProposal img_h img_w))
  refine ⟨List.mergeSort_perm _ segGE, ?_, ?_⟩
  · refine hsorted.imp ?_
    intro a b h
    simpa only [segGE, decide_eq_true_eq] using h
  · refine hsorted.imp ?_
    intro a b h hb
    simp only [segGE, decide_eq_true_eq] at h
    have hb3 : typePriority b.wall_type = 3 := (typePriority_eq_three _).mpr hb
    rcases h with h | ⟨h1, -⟩
    · have h3 := typePriority_le_three a.wall_type
      omega
    · exact (typePriority_eq_three _).mp (h1.trans hb3)

/-- A concrete proposal for the C5 witness. -/
def mdC5 : MaskData := ⟨[true], ⟨0, 0, 60, 60⟩, 0.9⟩

/-- C5 witness: the sort invariants at a concrete detection run. -/
theorem claim_C5_witness :
    (detect_walls_improved 100 100 [mdC5]).Perm
      ([mdC5].filterMap (processProposal 100 100)) :=
  (claim_C5 100 100 [mdC5]).1

/-! ## C8 -/

/-- Every segment in the detection output is a main or accent wall. -/
lemma mem_detect_types {img_h img_w : ℕ} {masks : List MaskData}
    {s : WallSegment} (hs : s ∈ detect_walls_improved img_h img_w masks) :
    s.wall_type = "main_wall" ∨ s.wall_type = "accent_wall" := by
  unfold detect_walls_improved sortSegments at hs
  have hmem :=
    (List.mergeSort_perm (masks.filterMap (processProposal img_h img_w))
      segGE).mem_iff.mp hs
  rw [List.mem_filterMap] at hmem
  obtain ⟨md, -, hmd⟩ := hmem
  exact ((claim_C1_amended img_h img_w md).2 s hmd).1

/-- C8: for every segment produced by detection (the only segments the
compositor ever paints), the effective opacity is the requested opacity
unmodified for `main_wall`, the requested opacity × 0.9 for `accent_wall`,
and — vacuously, since no other type is ever retained — the requested
opacity × 0.6 for any other retained type. -/
theorem claim_C8 (opacity : ℚ) (img_h img_w : ℕ) (masks : List MaskData)
    (s : WallSegment) (hs : s ∈ detect_walls_improved img_h img_w masks) :
    (s.wall_type = "main_wall" → wallOpacity s.wall_type opacity = opacity) ∧
    (s.wall_type = "accent_wall" →
      wallOpacity s.wall_type opacity = opacity * 0.9) ∧
    (s.wall_type ≠ "main_wall" → s.wall_type ≠ "accent_wall" →
      wallOpacity s.wall_type opacity = opacity * 0.6) := by
  refine ⟨?_, ?_, ?_⟩
  · intro h
    unfold wallOpacity
    rw [h]
    simp
  · intro h
    unfold wallOpacity
    rw [h]
    simp
  · intro h1 h2
    rcases mem_detect_types hs with h | h
    · exact absurd h h1
    · exact absurd h h2

/-- A unit-stability proposal classified `main_wall` in a 100×100 image. -/
def mdC8 : MaskData := ⟨[true], ⟨0, 0, 60, 60⟩, 1⟩

/-- The WallSegment that `mdC8` is retained as. -/
def segC8 : WallSegment := ⟨[true], 1, ⟨0, 0, 60, 60⟩, 1 * 0.95, "main_wall"⟩

/-- C8 witness: the retained main wall of the concrete detection run keeps
the requested opacity 0.7 unmodified. -/
theorem claim_C8_witness : wallOpacity segC8.wall_type 0.7 = 0.7 := by
  have hdet : detect_walls_improved 100 100 [mdC8] = [segC8] := by
    have hm : mainWallCond ⟨0, 0, 60, 60⟩ 100 100 := by
      unfold mainWallCond area_ratio aspect_ratio touches_left touches_right
      norm_num
    have hc : classify_wall_advanced mdC8.bbox 100 100 = ("main_wall", 0.95) := by
      unfold classify_wall_advanced mdC8
      rw [if_pos hm]
    have hp : processProposal 100 100 mdC8 = some segC8 := by
      unfold processProposal
      rw [hc]
      norm_num [mdC8, segC8]
    unfold detect_walls_improved sortSegments
    rw [List.filterMap_cons, hp]
    simp [List.mergeSort]
  exact
    (claim_C8 0.7 100 100 [mdC8] segC8 (by rw [hdet]; exact List.mem_singleton.mpr rfl)).1 rfl

/-! ## C6 -/

/-- The rescale loop is the zero-area filter of the per-segment map. -/
lemma resizeLoop_eq_filter_map (cvR : List ℕ → ℕ → ℕ → List ℕ)
    (ow oh : ℕ) (sf : ℚ) :
    ∀ segs : List WallSegment,
      resizeLoop cvR ow oh sf segs =
        (segs.map (resizeSegment cvR ow oh sf)).filter (fun r => 0 < r.area)
  | [] => rfl
  | s :: rest => by
    rw [List.map_cons, List.filter_cons]
    unfold resizeLoop
    by_cases h : 0 < (resizeSegment cvR ow oh sf s).area
    · rw [if_pos h, if_pos (by simpa using h),
        resizeLoop_eq_filter_map cvR ow oh sf rest]
    · rw [if_neg h, if_neg (by simpa using h),
        resizeLoop_eq_filter_map cvR ow oh sf rest]

/-- C6: for `scale_factor ≠ 1.0` the rescaler output is exactly the
per-segment transform of the input with zero-area segments dropped — in
particular an order-preserving subsequence (no duplication, no
reordering) of the transformed input — and each transformed segment's
mask is the interpolated resize of the 0/255 mask re-thresholded at 127,
its area is the pixel count of that resized mask, its bbox is the input
bbox divided by the scale factor and truncated to integers, and its
confidence and wall type are unchanged. -/
theorem claim_C6 (cvR : List ℕ → ℕ → ℕ → List ℕ) (segs : List WallSegment)
    (oh ow : ℕ) (sf : ℚ) (hsf : sf ≠ 1) :
    resize_masks_to_original cvR segs oh ow sf =
      (segs.map (resizeSegment cvR ow oh sf)).filter (fun r => 0 < r.area) ∧
    (resize_masks_to_original cvR segs oh ow sf).Sublist
      (segs.map (resizeSegment cvR ow oh sf)) ∧
    ∀ s : WallSegment,
      (resizeSegment cvR ow oh sf s).mask =
        (cvR (s.mask.map (fun b => if b then 255 else 0)) ow oh).map
          (fun v => decide (127 < v)) ∧
      (resizeSegment cvR ow oh sf s).area =
        ((cvR (s.mask.map (fun b => if b then 255 else 0)) ow oh).map
          (fun v => decide (127 < v))).countP id ∧
      (resizeSegment cvR ow oh sf s).bbox =
        ⟨pyInt ((s.bbox.x : ℚ) / sf), pyInt ((s.bbox.y : ℚ) / sf),
          pyInt ((s.bbox.w : ℚ) / sf), pyInt ((s.bbox.h : ℚ) / sf)⟩ ∧
      (resizeSegment cvR ow oh sf s).confidence = s.confidence ∧
      (resizeSegment cvR ow oh sf s).wall_type = s.wall_type := by
  have heq : resize_masks_to_original cvR segs oh ow sf =
      (segs.map (resizeSegment cvR ow oh sf)).filter (fun r => 0 < r.area) := by
    unfold resize_masks_to_original
    rw [if_neg hsf]
    exact resizeLoop_eq_filter_map cvR ow oh sf segs
  refine ⟨heq, ?_, fun s => ⟨rfl, rfl, rfl, rfl, rfl⟩⟩
  rw [heq]
  exact List.filter_sublist _

/-- A concrete segment for the C6 witness. -/
def segC6 : WallSegment := ⟨[true, false], 1, ⟨2, 3, 4, 5⟩, 1, "main_wall"⟩

/-- C6 witness: at scale factor 1/2 (with the identity grid in place of the
external interpolation) the rescaler output is a subsequence of the
per-segment transform of the input. -/
theorem claim_C6_witness :
    (resize_masks_to_original (fun m _ _ => m) [segC6] 2 2 (1/2)).Sublist
      ([segC6].map (resizeSegment (fun m _ _ => m) 2 2 (1/2))) :=
  (claim_C6 (fun m _ _ => m) [segC6] 2 2 (1/2) (by norm_num)).2.1

/-! ## C10 -/

/-- C10: a detection request that succeeds with zero retained wall
segments reports success with an empty wall list but writes no cache
entry, so every subsequent paint request and every subsequent visualize
request for that fingerprint is rejected as a cache miss. -/
theorem claim_C10 (cvR : List ℕ → ℕ → ℕ → List ℕ) (c : Cache) (hash : String)
    (img : List Pixel) (oh ow : ℕ) (sf : ℚ) (img_h img_w : ℕ)
    (masks : List MaskData)
    (hmiss : cacheLookup c hash = none)
    (hempty : detect_walls_improved img_h img_w masks = []) :
    (detect_walls_only cvR c hash img oh ow sf img_h img_w masks).2 =
      ⟨true, 0, false⟩ ∧
    (detect_walls_only cvR c hash img oh ow sf img_h img_w masks).1 = c ∧
    (∀ (ids : List ℤ) (color : Pixel) (opacity : ℚ) (mo : Bool),
      paint_instant (detect_walls_only cvR c hash img oh ow sf img_h img_w masks).1
        ⟨hash, ids, color, opacity, mo⟩ =
        Except.error "Image not found in cache. Please detect walls first.") ∧
    (∀ (cvR2 : List ℕ → ℕ → ℕ → List ℕ) (iw ih : ℕ),
      visualize_masks cvR2 iw ih
        (detect_walls_only cvR c hash img oh ow sf img_h img_w masks).1 hash =
        Except.error "Image not found in cache") := by
  have hd : detect_walls_only cvR c hash img oh ow sf img_h img_w masks =
      (c, ⟨true, 0, false⟩) := by
    unfold detect_walls_only
    rw [hmiss]
    simp [hempty]
  refine ⟨by rw [hd], by rw [hd], ?_, ?_⟩
  · intro ids color opacity mo
    rw [hd]
    simp [paint_instant, hmiss]
  · intro cvR2 iw ih
    rw [hd]
    by_cases hh : hash = ""
    · simp [visualize_masks, hh]
    · simp [visualize_masks, hh, hmiss]

/-- C10 witness: empty cache, empty oracle output — detection succeeds with
zero walls, and both the follow-up paint request and the follow-up
visualize request are cache-miss errors. -/
theorem claim_C10_witness :
    paint_instant
      (detect_walls_only (fun m _ _ => m) [] "h" [] 2 2 (1/2) 10 10 []).1
      ⟨"h", [], (255, 0, 0), 0.7, false⟩ =
      Except.error "Image not found in cache. Please detect walls first." ∧
    visualize_masks (fun m _ _ => m) 10 10
      (detect_walls_only (fun m _ _ => m) [] "h" [] 2 2 (1/2) 10 10 []).1 "h" =
      Except.error "Image not found in cache" :=
  ⟨(claim_C10 (fun m _ _ => m) [] "h" [] 2 2 (1/2) 10 10 [] rfl
      (by simp [detect_walls_improved, sortSegments, List.mergeSort])).2.2.1
      [] (255, 0, 0) 0.7 false,
   (claim_C10 (fun m _ _ => m) [] "h" [] 2 2 (1/2) 10 10 [] rfl
      (by simp [detect_walls_improved, sortSegments, List.mergeSort])).2.2.2
      (fun m _ _ => m) 10 10⟩

/-! ## C3 -/

/-- C3 (amended): a "main walls only" paint request on a cached entry with
no main_wall segment succeeds and returns the original image with zero
segments painted; but a wall-index subset that selects zero segments is
rejected by `paint_instant` with a "No valid walls to paint" error before
the compositor runs. -/
theorem claim_C3_amended (c : Cache) (req : PaintRequest) (entry : CacheEntry)
    (hlook : cacheLookup c req.image_hash = some entry)
    (hsegs : entry.wall_segments ≠ []) :
    (req.wall_ids = [] → req.mainWallsOnly = true →
      (∀ s ∈ entry.wall_segments, s.wall_type ≠ "main_wall") →
      paint_instant c req =
        Except.ok (entry.original_image, entry.wall_segments.length)) ∧
    (req.wall_ids ≠ [] →
      buildWallsToPaint entry.wall_segments req.wall_ids = Except.ok [] →
      paint_instant c req = Except.error "No valid walls to paint") := by
  constructor
  · intro hids hmain hnomain
    unfold paint_instant
    rw [hlook, hids]
    simp only [if_pos rfl, hsegs, if_neg hsegs]
    have hfil : entry.wall_segments.filter
        (fun w => w.wall_type = "main_wall") = [] := by
      rw [List.filter_eq_nil_iff]
      intro a ha
      simpa using hnomain a ha
    unfold apply_smart_paint wallsFilter
    rw [hmain]
    simp [hsegs, hfil]
  · intro hids hsel
    unfold paint_instant
    rw [hlook]
    simp only [hids, if_neg hids, hsel]
    simp

/-- A cache with one accent-only entry, for the C3 counterexample. -/
def cacheC3 : Cache :=
  [("h", ⟨[⟨[true], 1, ⟨0, 0, 1, 1⟩, 0.75, "accent_wall"⟩], [(5, 6, 7)]⟩)]

/-- C3 counterexample: a paint request whose wall-index subset selects
zero segments (index 3 on a one-segment cache entry) is answered with an
error response, not the success-with-unpainted-image the claim states. -/
theorem claim_C3_counterexample :
    paint_instant cacheC3 ⟨"h", [3], (255, 0, 0), 0.7, false⟩ =
      Except.error "No valid walls to paint" ∧
    ∀ out : List Pixel × ℕ,
      paint_instant cacheC3 ⟨"h", [3], (255, 0, 0), 0.7, false⟩ ≠
        Except.ok out := by
  have h : paint_instant cacheC3 ⟨"h", [3], (255, 0, 0), 0.7, false⟩ =
      Except.error "No valid walls to paint" := by
    simp [paint_instant, cacheC3, cacheLookup, List.lookup, buildWallsToPaint]
  exact ⟨h, fun out hout => by rw [h] at hout; exact Except.noConfusion hout⟩

/-- A cache with one accent-only entry, for the C3 witness. -/
def cacheC3w : Cache :=
  [("hw", ⟨[⟨[true], 1, ⟨0, 0, 1, 1⟩, 0.75, "accent_wall"⟩], [(5, 6, 7)]⟩)]

/-- C3 witness: the main-walls-only request on the accent-only cached entry
returns the original image unpainted as a success. -/
theorem claim_C3_witness :
    paint_instant cacheC3w ⟨"hw", [], (255, 0, 0), 0.7, true⟩ =
      Except.ok ([(5, 6, 7)], 1) := by
  have h := (claim_C3_amended cacheC3w ⟨"hw", [], (255, 0, 0), 0.7, true⟩
      ⟨[⟨[true], 1, ⟨0, 0, 1, 1⟩, 0.75, "accent_wall"⟩], [(5, 6, 7)]⟩
      (by simp [cacheC3w, cacheLookup, List.lookup])
      (by simp)).1 rfl rfl (by simp)
  simpa using h

/-! ## C9 -/

/-- For non-negative indices the guarded comprehension keeps exactly the
in-range indices, in order: indices ≥ the segment count are dropped by the
`i < len` guard and the rest select positionally. -/
lemma buildWalls_nonneg (segs : List WallSegment) :
    ∀ ids : List ℤ, (∀ i ∈ ids, 0 ≤ i) →
      buildWallsToPaint segs ids =
        Except.ok ((ids.filter (fun i => i < (segs.length : ℤ))).filterMap
          (fun i => segs.get? i.toNat))
  | [], _ => rfl
  | i :: rest, h => by
    have hi : 0 ≤ i := h i (List.mem_cons_self i rest)
    have hrest := buildWalls_nonneg segs rest
      (fun j hj => h j (List.mem_cons_of_mem i hj))
    unfold buildWallsToPaint
    rw [List.filter_cons]
    by_cases hlt : i < (segs.length : ℤ)
    · have hlen : i.toNat < segs.length := by omega
      obtain ⟨s, hgs⟩ : ∃ s, segs.get? i.toNat = some s :=
        ⟨segs.get ⟨i.toNat, hlen⟩, List.get?_eq_get hlen⟩
      have hpy : pyGet segs i = some s := by
        unfold pyGet
        rw [if_pos hi, hgs]
      rw [if_pos hlt, hpy, hrest]
      simp only [List.get?_eq_getElem?] at hgs
      simp [hlt, List.filterMap_cons, hgs, Except.map]
    · rw [if_neg hlt, hrest]
      simp [hlt]

/-- A negative index of at least `-len` passes the `i < len` guard and
Python indexing addresses the list from the back: the comprehension
selects the segment at position `len + i`. -/
lemma buildWalls_backindex (segs : List WallSegment) (i : ℤ)
    (h1 : -(segs.length : ℤ) ≤ i) (h2 : i < 0)
    (h : ((segs.length : ℤ) + i).toNat < segs.length) :
    buildWallsToPaint segs [i] =
      Except.ok [segs.get ⟨((segs.length : ℤ) + i).toNat, h⟩] := by
  unfold buildWallsToPaint
  have hlt : i < (segs.length : ℤ) := by omega
  have hpy : pyGet segs i =
      some (segs.get ⟨((segs.length : ℤ) + i).toNat, h⟩) := by
    unfold pyGet
    rw [if_neg (by omega), if_pos (by omega), List.get?_eq_get h]
  rw [if_pos hlt, hpy]
  rfl

/-- An index below `-len` raises `IndexError` inside the comprehension,
aborting the whole selection. -/
lemma buildWalls_neg_error (segs : List WallSegment) (i : ℤ)
    (hi : i < -(segs.length : ℤ)) (rest : List ℤ) :
    buildWallsToPaint segs (i :: rest) =
      Except.error "list index out of range" := by
  unfold buildWallsToPaint
  have hlt : i < (segs.length : ℤ) := by omega
  have hnone : pyGet segs i = none := by
    unfold pyGet
    rw [if_neg (by omega), if_neg (by omega)]
  rw [if_pos hlt, hnone]

/-- C9 (amended): on a cached entry, an empty wall-index subset paints all
cached wall segments; a subset of non-negative indices has each index ≥
the segment count silently dropped by the `i < len` guard, the remaining
valid indices selecting their segments in order; an index below minus
the segment count is a Python `IndexError` and fails the whole request
with an error; and a negative index of at least minus the segment count
addresses from the end of the list (Python indexing) and its segment is
painted, rather than being ignored. -/
theorem claim_C9_amended (c : Cache) (hash : String) (entry : CacheEntry)
    (hlook : cacheLookup c hash = some entry)
    (hsegs : entry.wall_segments ≠ []) :
    (∀ (color : Pixel) (opacity : ℚ),
      paint_instant c ⟨hash, [], color, opacity, false⟩ =
        Except.ok
          (apply_smart_paint entry.original_image entry.wall_segments
            color opacity false,
           entry.wall_segments.length)) ∧
    (∀ ids : List ℤ, (∀ i ∈ ids, 0 ≤ i) →
      buildWallsToPaint entry.wall_segments ids =
        Except.ok
          ((ids.filter (fun i => i < (entry.wall_segments.length : ℤ))).filterMap
            (fun i => entry.wall_segments.get? i.toNat))) ∧
    (∀ (i : ℤ) (rest : List ℤ) (color : Pixel) (opacity : ℚ) (mo : Bool),
      i < -(entry.wall_segments.length : ℤ) →
      paint_instant c ⟨hash, i :: rest, color, opacity, mo⟩ =
        Except.error "list index out of range") ∧
    (∀ (i : ℤ) (color : Pixel) (opacity : ℚ) (mo : Bool),
      -(entry.wall_segments.length : ℤ) ≤ i → i < 0 →
      ∀ h : ((entry.wall_segments.length : ℤ) + i).toNat <
          entry.wall_segments.length,
        paint_instant c ⟨hash, [i], color, opacity, mo⟩ =
          Except.ok
            (apply_smart_paint entry.original_image
              [entry.wall_segments.get
                ⟨((entry.wall_segments.length : ℤ) + i).toNat, h⟩]
              color opacity mo,
             1)) := by
  refine ⟨?_, buildWalls_nonneg entry.wall_segments, ?_, ?_⟩
  · intro color opacity
    unfold paint_instant
    rw [hlook]
    simp [hsegs]
  · intro i rest color opacity mo hi
    unfold paint_instant
    rw [hlook]
    dsimp only
    rw [buildWalls_neg_error entry.wall_segments i hi rest]
    simp
  · intro i color opacity mo h1 h2 h
    unfold paint_instant
    rw [hlook]
    dsimp only
    rw [buildWalls_backindex entry.wall_segments i h1 h2 h]
    simp

/-- A cache with a single one-segment entry, for the C9 counterexample. -/
def cacheC9 : Cache :=
  [("h", ⟨[⟨[true], 1, ⟨0, 0, 1, 1⟩, 0.75, "accent_wall"⟩], [(5, 6, 7)]⟩)]

/-- C9 counterexample: index −2 is out of range for the one-segment cached
list, yet it is not silently ignored — the request fails with the
propagated `IndexError` instead of painting the remaining walls. -/
theorem claim_C9_counterexample :
    paint_instant cacheC9 ⟨"h", [-2], (255, 0, 0), 0.7, false⟩ =
      Except.error "list index out of range" ∧
    ∀ out : List Pixel × ℕ,
      paint_instant cacheC9 ⟨"h", [-2], (255, 0, 0), 0.7, false⟩ ≠
        Except.ok out := by
  have h : paint_instant cacheC9 ⟨"h", [-2], (255, 0, 0), 0.7, false⟩ =
      Except.error "list index out of range" := by
    simp [paint_instant, cacheC9, cacheLookup, List.lookup, buildWallsToPaint,
      pyGet]
  exact ⟨h, fun out hout => by rw [h] at hout; exact Except.noConfusion hout⟩

/-- A cache with a single one-segment entry, for the C9 witness. -/
def cacheC9w : Cache :=
  [("hw", ⟨[⟨[true], 1, ⟨0, 0, 1, 1⟩, 0.75, "accent_wall"⟩], [(9, 9, 9)]⟩)]

/-- C9 witness: the empty wall-index subset paints all (here: the one)
cached wall segments, and the back-addressing index −1 selects and paints
that same last segment. -/
theorem claim_C9_witness :
    paint_instant cacheC9w ⟨"hw", [], (255, 0, 0), 0.7, false⟩ =
      Except.ok
        (apply_smart_paint [(9, 9, 9)]
          [⟨[true], 1, ⟨0, 0, 1, 1⟩, 0.75, "accent_wall"⟩] (255, 0, 0) 0.7 false,
         1) ∧
    paint_instant cacheC9w ⟨"hw", [-1], (255, 0, 0), 0.7, false⟩ =
      Except.ok
        (apply_smart_paint [(9, 9, 9)]
          [⟨[true], 1, ⟨0, 0, 1, 1⟩, 0.75, "accent_wall"⟩] (255, 0, 0) 0.7 false,
         1) := by
  constructor
  · have h := (claim_C9_amended cacheC9w "hw"
        ⟨[⟨[true], 1, ⟨0, 0, 1, 1⟩, 0.75, "accent_wall"⟩], [(9, 9, 9)]⟩
        (by simp [cacheC9w, cacheLookup, List.lookup]) (by simp)).1 (255, 0, 0) 0.7
    simpa using h
  · have h := (claim_C9_amended cacheC9w "hw"
        ⟨[⟨[true], 1, ⟨0, 0, 1, 1⟩, 0.75, "accent_wall"⟩], [(9, 9, 9)]⟩
        (by simp [cacheC9w, cacheLookup, List.lookup]) (by simp)).2.2.2
        (-1) (255, 0, 0) 0.7 false (by decide) (by decide) (by decide)
    simpa using h

/-! ## C7 -/

/-- Every wall-type opacity adjustment maps a requested opacity of 0 to 0. -/
lemma wallOpacity_zero (t : String) : wallOpacity t 0 = 0 := by
  unfold wallOpacity
  split_ifs <;> ring

/-- Blending with effective opacity 0 returns the original pixel. -/
lemma blendPixel_zero (p : Pixel) (adj : ℚ × ℚ × ℚ) : blendPixel p adj 0 = p := by
  obtain ⟨a, b, c⟩ := p
  simp [blendPixel, toChan]

/-- Painting one segment at requested opacity 0 is the identity. -/
lemma paintSegment_opacity_zero (color : Pixel) (image : List Pixel)
    (s : WallSegment) : paintSegment color 0 image s = image := by
  unfold paintSegment
  split_ifs with h1 h2
  · rfl
  · rfl
  · rw [wallOpacity_zero]
    rw [List.map_congr_left
      (g := fun pb : Pixel × Bool => pb.1)
      (fun pb _ => by by_cases hb : pb.2 <;> simp [hb, blendPixel_zero])]
    exact List.map_fst_zip image s.mask (le_of_eq (by omega))

/-- The sequential paint loop at requested opacity 0 is the identity. -/
lemma foldl_paintSegment_zero (color : Pixel) :
    ∀ (walls : List WallSegment) (image : List Pixel),
      walls.foldl (paintSegment color 0) image = image
  | [], _ => rfl
  | s :: rest, image => by
    rw [List.foldl_cons, paintSegment_opacity_zero]
    exact foldl_paintSegment_zero color rest image

/-- `clip` to [0, 255] is the identity on in-range values. -/
lemma clip_id {q : ℚ} (h0 : 0 ≤ q) (h255 : q ≤ 255) : clip q 0 255 = q := by
  unfold clip
  rw [min_eq_left h255, max_eq_right h0]

/-- `toChan` is the identity on natural channel values. -/
lemma toChan_cast (n : ℕ) : toChan (n : ℚ) = n := by
  simp [toChan]

/-- With brightness factor 1 and effective opacity 1 the blend yields the
target color exactly (channels in 0..255). -/
lemma blendPixel_one_exact (p : Pixel) (c : Pixel) (hc1 : c.1 ≤ 255)
    (hc2 : c.2.1 ≤ 255) (hc3 : c.2.2 ≤ 255) :
    blendPixel p (adjustedColor c 1) 1 = c := by
  obtain ⟨c1, c2, c3⟩ := c
  unfold blendPixel adjustedColor
  simp only [mul_one, sub_self, zero_mul, one_mul, zero_add]
  rw [clip_id (by positivity) (by exact_mod_cast hc1),
    clip_id (by positivity) (by exact_mod_cast hc2),
    clip_id (by positivity) (by exact_mod_cast hc3)]
  simp [toChan_cast]

/-- C7 (amended): with requested opacity 0 the compositor returns the
image unchanged (so pixels under every mask equal the originals exactly,
well within the ±1 rounding bound); with requested opacity 1 and
brightness factor 1.0, pixels under a main_wall segment's mask equal the
target color exactly — but for non-main types the per-type opacity
scaling keeps the result a blend (see the counterexample). -/
theorem claim_C7_amended (image : List Pixel) (segs : List WallSegment)
    (color : Pixel) (mo : Bool) (opacity : ℚ) (hc1 : color.1 ≤ 255)
    (hc2 : color.2.1 ≤ 255) (hc3 : color.2.2 ≤ 255) :
    (opacity = 0 → apply_smart_paint image segs color opacity mo = image) ∧
    (opacity = 1 →
      ∀ s : WallSegment, s.wall_type = "main_wall" →
        s.mask.length = image.length →
        brightnessFactor image s.mask = 1 →
        ∀ (i : ℕ) (hm : i < s.mask.length), s.mask.get ⟨i, hm⟩ = true →
          (paintSegment color opacity image s)[i]? = some color) := by
  constructor
  · intro h0
    subst h0
    unfold apply_smart_paint
    split_ifs with h1 h2
    · rfl
    · rfl
    · exact foldl_paintSegment_zero color _ image
  · intro h1 s htype hlen hbf i hm hmask
    subst h1
    have hi : i < image.length := hlen ▸ hm
    have hzl : i < (image.zip s.mask).length := by
      rw [List.length_zip]
      omega
    have hmaskElem : s.mask[i] = true := by
      simpa using hmask
    have hne : ¬(maskedPixels image s.mask).length = 0 := by
      have hmem : image[i] ∈ maskedPixels image s.mask := by
        apply List.mem_filterMap.mpr
        refine ⟨(image[i], s.mask[i]), List.getElem_zip ▸ List.getElem_mem hzl, ?_⟩
        rw [hmaskElem]
        simp
      intro hzero
      rw [List.length_eq_zero] at hzero
      rw [hzero] at hmem
      exact List.not_mem_nil _ hmem
    have hres : paintSegment color 1 image s =
        (image.zip s.mask).map (fun pb =>
          if pb.2 then
            blendPixel pb.1 (adjustedColor color (brightnessFactor image s.mask))
              (wallOpacity s.wall_type 1)
          else pb.1) := by
      unfold paintSegment
      rw [if_neg (by omega), if_neg hne]
    have hwo : wallOpacity s.wall_type 1 = 1 := by
      rw [htype]
      unfold wallOpacity
      simp
    rw [hres, List.getElem?_map, List.getElem?_eq_getElem hzl, List.getElem_zip,
      Option.map_some']
    simp only [hmaskElem, if_pos rfl, hbf, hwo]
    rw [blendPixel_one_exact _ _ hc1 hc2 hc3]
    simp

/-- The accent wall of the C7 counterexample. -/
def segC7 : WallSegment := ⟨[true], 1, ⟨0, 0, 1, 1⟩, 0.75, "accent_wall"⟩

/-- C7 counterexample: painting the one-pixel image `(128,128,128)` (whose
brightness factor is exactly 1.0) with color `(255,0,0)` at requested
opacity 1 over an `accent_wall` segment yields `(242,12,12)`, not the
target color — the per-type 0.9 opacity scaling contradicts "with opacity
= 1 and brightness factor = 1.0 the output pixels under the mask equal
the target color exactly" for non-main wall segments. -/
theorem claim_C7_counterexample :
    brightnessFactor [(128, 128, 128)] segC7.mask = 1 ∧
    apply_smart_paint [(128, 128, 128)] [segC7] (255, 0, 0) 1 false =
      [(242, 12, 12)] ∧
    ((242, 12, 12) : Pixel) ≠ (255, 0, 0) := by
  have h1 : maskedPixels [(128, 128, 128)] segC7.mask = [(128, 128, 128)] := rfl
  have h2 : avgBrightness [((128 : ℕ), (128 : ℕ), (128 : ℕ))] = 128 := by
    unfold avgBrightness gray
    norm_num
  have hbf : brightnessFactor [(128, 128, 128)] segC7.mask = 1 := by
    unfold brightnessFactor
    rw [h1, h2]
    unfold clip
    norm_num [min_def, max_def]
  have hwo : wallOpacity segC7.wall_type 1 = 9/10 := by
    unfold segC7 wallOpacity
    norm_num
  have hadj : adjustedColor (255, 0, 0) 1 = (255, 0, 0) := by
    unfold adjustedColor clip
    norm_num [min_def, max_def]
  have hps : paintSegment (255, 0, 0) 1 [(128, 128, 128)] segC7 =
      [(242, 12, 12)] := by
    unfold paintSegment
    rw [if_neg (by simp [segC7]), if_neg (by rw [h1]; simp)]
    rw [hbf, hadj, hwo]
    show [blendPixel (128, 128, 128) (255, 0, 0) (9/10)] = [(242, 12, 12)]
    unfold blendPixel toChan
    norm_num
    rfl
  refine ⟨hbf, ?_, by decide⟩
  unfold apply_smart_paint wallsFilter
  rw [if_neg (by simp), if_neg (by simp)]
  simp only [Bool.false_eq_true, if_false, List.foldl_cons, List.foldl_nil]
  exact hps

/-- The main wall of the C7 witness. -/
def segC7w : WallSegment := ⟨[true], 1, ⟨0, 0, 1, 1⟩, 0.95, "main_wall"⟩

/-- C7 witness: at opacity 1 with brightness factor 1, the pixel under the
concrete main wall's mask becomes the target color exactly. -/
theorem claim_C7_witness :
    (paintSegment (255, 0, 0) 1 [(128, 128, 128)] segC7w)[0]? =
      some (255, 0, 0) := by
  have hbf : brightnessFactor [(128, 128, 128)] segC7w.mask = 1 := by
    have h1 : maskedPixels [(128, 128, 128)] segC7w.mask = [(128, 128, 128)] := rfl
    have h2 : avgBrightness [((128 : ℕ), (128 : ℕ), (128 : ℕ))] = 128 := by
      unfold avgBrightness gray
      norm_num
    unfold brightnessFactor
    rw [h1, h2]
    unfold clip
    norm_num [min_def, max_def]
  have hm : (0 : ℕ) < segC7w.mask.length := by simp [segC7w]
  exact (claim_C7_amended [(128, 128, 128)] [segC7w] (255, 0, 0) false 1
    (by norm_num) (by norm_num) (by norm_num)).2 rfl segC7w rfl rfl hbf 0 hm rfl

end WallPaint
